import Mathlib

/-!
Verification of the reviewinator polling/reconciliation core.

The definitions below are a shallow embedding of the Python sources
(`src/reviewinator/notifications.py`, `app.py`, `github_client.py`,
`cache.py`, `config.py`).  Python machine values are modelled as follows:
integers as `Int`, strings as `String`, `None`-able values as `Option`,
timezone-aware timestamps as `Int` (an abstract time axis), Python sets as
`Finset`, and Python dicts as insertion-ordered association lists with a
first-match lookup and an overwrite-in-place insert, matching CPython dict
semantics.
-/

namespace Reviewinator

/-- One fetched pull request, from `github_client.py` (`PullRequest`
dataclass).  `type` is "review_request" or "created"; `review_status` is
`some` of "waiting" / "approved" / "changes_requested" / "commented", or
`none`. -/
structure PullRequest where
  id : Int
  number : Int
  title : String
  author : String
  repo : String
  url : String
  created_at : Int
  type : String
  review_status : Option String
deriving DecidableEq, Repr

/-- Association-list lookup: Python `dict.get` / `dict[k]` (first matching
key wins; our insert keeps keys unique positionally, as CPython does). -/
def alookup {α β : Type} [DecidableEq α] : List (α × β) → α → Option β
  | [], _ => none
  | (a, b) :: m, k => if a = k then some b else alookup m k

/-- Python `d[k] = v`: if the key is present every entry carrying it is
overwritten in place (CPython keeps the original position), otherwise the
pair is appended. -/
def dictInsert {α β : Type} [DecidableEq α] (m : List (α × β)) (k : α) (v : β) :
    List (α × β) :=
  if m.any (fun p => p.1 = k) then
    m.map (fun p => if p.1 = k then (k, v) else p)
  else
    m ++ [(k, v)]

/-- `notifications.py` line 18:
`[pr for pr in current_prs if pr.id not in seen_ids]`. -/
def find_new_prs (current_prs : List PullRequest) (seen_ids : Finset Int) :
    List PullRequest :=
  current_prs.filter (fun pr => pr.id ∉ seen_ids)

/-- Python `old_status or "unknown"` (`notifications.py` line 63): `None`
and the empty string are falsy. -/
def orUnknown (o : Option String) : String :=
  match o with
  | none => "unknown"
  | some s => if s = "" then "unknown" else s

/-- `notifications.py` lines 38-65 (`find_status_changes`): the for-loop
with `continue` and conditional append is the order-preserving
`filterMap`. -/
def find_status_changes (prs : List PullRequest)
    (old_statuses : List (Int × String)) :
    List (PullRequest × String × String) :=
  prs.filterMap (fun pr =>
    if pr.type ≠ "created" then none
    else
      match pr.review_status with
      | none => none
      | some new_status =>
        let old_status := alookup old_statuses pr.id
        if old_status ≠ some new_status ∧
            (new_status = "approved" ∨ new_status = "changes_requested") then
          some (pr, orUnknown old_status, new_status)
        else none)

/-- A sample created-kind PR used for concrete scenario checks. -/
def mkCreated (i : Int) (s : Option String) : PullRequest :=
  ⟨i, 1, "title", "alice", "org/repo", "https://x", 0, "created", s⟩

/-- A requested team on a PR, from the remote API: `org` is `some login`
when `team.organization` is present (`none` models a missing/`None`
organization object), `slug` is the team slug string (`none` models
`None`; the empty string is falsy in Python). -/
structure Team where
  org : Option String
  slug : Option String
deriving DecidableEq, Repr

/-- The reviewer data of one PR as read from the remote API by
`_should_show_review_request` (`pr.requested_reviewers or []` makes a
`None` list equal to the empty list, so plain lists suffice). -/
structure ReviewRequestData where
  requested_reviewers : List String
  requested_teams : List Team
deriving DecidableEq, Repr

/-- `github_client.py` lines 145-150: skip a team when
`not team.organization or not team.slug`, otherwise form
`organization.login ++ "/" ++ slug`. -/
def teamId (t : Team) : Option String :=
  match t.org, t.slug with
  | some o, some s => if s = "" then none else some (o ++ "/" ++ s)
  | _, _ => none

/-- `github_client.py` lines 121-170 (`_should_show_review_request`).
The `data` argument is `none` when reading the reviewer data raises (the
`except Exception` arm, lines 168-170). -/
def should_show_review_request (data : Option ReviewRequestData)
    (username : String) (excluded_review_teams : List String) : Bool :=
  match data with
  | none => true
  | some d =>
    let individual_reviewers := d.requested_reviewers
    let team_reviewers := d.requested_teams.filterMap teamId
    if username ∈ individual_reviewers then true
    else if team_reviewers.any (fun t => t ∉ excluded_review_teams) then true
    else if team_reviewers ≠ [] ∧
        team_reviewers.all (fun t => t ∈ excluded_review_teams) then false
    else true

/-- `github_client.py` lines 197-203: the `continue` chain applied to each
created PR's review status; returns whether the status passes the
configured filter mode. -/
def matches_created_filter (filter_type review_status : String) : Bool :=
  if filter_type = "waiting" ∧ review_status ≠ "waiting" then false
  else if filter_type = "needs_attention" ∧ review_status ≠ "changes_requested" then
    false
  else if filter_type = "any" ∧
      review_status ∉ ["waiting", "changes_requested", "approved"] then false
  else true

/-- `config.py` line 79: the modes accepted by `load_config`. -/
def valid_filters : List String := ["all", "waiting", "needs_attention"]

/-- The reconciliation cache as used by `app.py`.  `seen_prs`,
`pr_statuses` and `last_checked` are the fields of the `Cache` dataclass in
`cache.py`.  Modelled from the spec: the `repo_activity` field (repo name →
timestamp of most recent observed activity) is read and written by
`app.py` (lines 215-226) and required by the tests, but the `Cache`
dataclass in `src/reviewinator/cache.py` does not declare it; it is
modelled here from the spec's Cache description. -/
structure EngineCache where
  seen_prs : Finset Int
  pr_statuses : List (Int × String)
  last_checked : Option Int
  repo_activity : List (String × Int)

/-- The outcome of one poll: the two event lists that drive notifications,
the replaced cache, and the cleared first-run flag. -/
structure PollResult where
  new_prs : List PullRequest
  status_changes : List (PullRequest × String × String)
  cache : EngineCache
  is_first_run : Bool

/-- One step of the dict comprehension at `app.py` lines 241-245:
`{pr.id: pr.review_status for pr in self.prs if pr.type == "created" and
pr.review_status is not None}`. -/
def prStatusStep (m : List (Int × String)) (pr : PullRequest) :
    List (Int × String) :=
  if pr.type = "created" then
    match pr.review_status with
    | some s => dictInsert m pr.id s
    | none => m
  else m

/-- The full status dict comprehension of `app.py` lines 241-245. -/
def prStatusesOf (prs : List PullRequest) : List (Int × String) :=
  prs.foldl prStatusStep []

/-- One step of the loop at `app.py` lines 217-218:
`self.cache.repo_activity[pr.repo] = now`. -/
def repoActivityStep (now : Int) (m : List (String × Int)) (pr : PullRequest) :
    List (String × Int) :=
  dictInsert m pr.repo now

/-- `app.py` lines 210-249 (`_fetch_and_update`), success path, as a pure
function of the fetched PRs, the prior cache, the current time, the
configured lookback (`config.activity_lookback_days`, modelled from the
spec because `config.py` does not declare it), and the first-run flag.
Notification side effects are dropped; the event lists they consume are
returned. -/
def fetch_and_update (prs : List PullRequest) (cache : EngineCache)
    (now activity_lookback_days : Int) (is_first_run : Bool) : PollResult :=
  let ra := prs.foldl (repoActivityStep now) cache.repo_activity
  let cutoff := now - activity_lookback_days
  let ra2 := ra.filter (fun p => cutoff < p.2)
  let new_prs := if is_first_run then [] else find_new_prs prs cache.seen_prs
  let status_changes :=
    if is_first_run then [] else find_status_changes prs cache.pr_statuses
  { new_prs := new_prs
    status_changes := status_changes
    cache :=
      { seen_prs := (prs.map (fun pr => pr.id)).toFinset
        pr_statuses := prStatusesOf prs
        last_checked := some now
        repo_activity := ra2 }
    is_first_run := false }

/-- A concrete cache with junk prior state, used in witnesses. -/
def sampleCache : EngineCache :=
  ⟨{9}, [(9, "approved")], some 0, [("old/repo", -100)]⟩

/-- A dynamically typed Python runtime value, as handled by `cache.py`:
`None`, booleans, integers, strings, lists, dicts (insertion-ordered pair
lists), sets (element lists, order abstracted as insertion order) and
timezone-aware datetimes (an abstract integer time axis). -/
inductive PyVal where
  | none : PyVal
  | bool : Bool → PyVal
  | int : Int → PyVal
  | str : String → PyVal
  | list : List PyVal → PyVal
  | dict : List (PyVal × PyVal) → PyVal
  | set : List PyVal → PyVal
  | datetime : Int → PyVal
deriving Repr

/-- The Python exceptions relevant to `cache.py`. -/
inductive PyErr where
  | typeError
  | valueError
  | keyError
  | attributeError
  | osError
  | jsonDecodeError
deriving DecidableEq, Repr

/-- What `open` + `json.load` can encounter for a cache file: the file is
missing, exists but cannot be opened, holds text that is not JSON, or
parses to a JSON value. -/
inductive FileState where
  | absent
  | unreadable
  | malformed
  | valid : PyVal → FileState

/-- The `Cache` dataclass of `cache.py` (lines 9-15): exactly the three
fields `seen_prs`, `pr_statuses`, `last_checked`.  Python does not enforce
the annotated types, so each field holds an arbitrary runtime value. -/
structure SrcCache where
  seen_prs : PyVal
  pr_statuses : PyVal
  last_checked : PyVal
deriving Repr

/-- `Cache()` with its dataclass defaults: empty set, empty dict, None. -/
def emptyCache : SrcCache := ⟨.set [], .dict [], .none⟩

mutual
/-- Python structural equality on runtime values. -/
def pyBeq : PyVal → PyVal → Bool
  | .none, .none => true
  | .bool a, .bool b => a == b
  | .int a, .int b => a == b
  | .str a, .str b => a == b
  | .datetime a, .datetime b => a == b
  | .list xs, .list ys => pyBeqList xs ys
  | .set xs, .set ys => pyBeqList xs ys
  | .dict xs, .dict ys => pyBeqPairs xs ys
  | _, _ => false

def pyBeqList : List PyVal → List PyVal → Bool
  | [], [] => true
  | x :: xs, y :: ys => pyBeq x y && pyBeqList xs ys
  | _, _ => false

def pyBeqPairs : List (PyVal × PyVal) → List (PyVal × PyVal) → Bool
  | [], [] => true
  | (k1, v1) :: xs, (k2, v2) :: ys =>
    pyBeq k1 k2 && pyBeq v1 v2 && pyBeqPairs xs ys
  | _, _ => false
end

/-- Python truthiness, as used by `if data.get("last_checked"):` and
`if cache.last_checked`. -/
def truthy : PyVal → Bool
  | .none => false
  | .bool b => b
  | .int n => n != 0
  | .str s => s != ""
  | .list xs => !xs.isEmpty
  | .dict es => !es.isEmpty
  | .set xs => !xs.isEmpty
  | .datetime _ => true

/-- Python `==` between a dict key and a string literal (a non-string key
never equals a string). -/
def isStrKeyEq (k : PyVal) (s : String) : Bool :=
  match k with
  | .str t => t == s
  | _ => false

/-- First value in a dict entry list whose key equals the string `s`. -/
def dictFind : List (PyVal × PyVal) → String → Option PyVal
  | [], _ => none
  | (k, v) :: es, s => if isStrKeyEq k s then some v else dictFind es s

/-- `data.get(key, default)`: raises `AttributeError` when `data` is not a
dict (e.g. a JSON array or number), otherwise total. -/
def pyGet (d : PyVal) (key : String) (dflt : PyVal) : Except PyErr PyVal :=
  match d with
  | .dict es => .ok ((dictFind es key).getD dflt)
  | _ => .error .attributeError

/-- Python iteration: lists and sets yield elements, strings their
characters, dicts their keys; other values raise `TypeError`. -/
def pyIterate : PyVal → Except PyErr (List PyVal)
  | .list xs => .ok xs
  | .set xs => .ok xs
  | .str s => .ok (s.data.map (fun c => .str (String.mk [c])))
  | .dict es => .ok (es.map Prod.fst)
  | _ => .error .typeError

/-- Keep the first occurrence of each element (Python `set` construction,
with its unordered nature abstracted to first-occurrence order). -/
def pyDedup : List PyVal → List PyVal
  | [] => []
  | x :: rest => x :: (pyDedup rest).filter (fun y => !pyBeq x y)

/-- `set(v)`. -/
def pySet (v : PyVal) : Except PyErr PyVal := do
  let xs ← pyIterate v
  pure (.set (pyDedup xs))

/-- `list(v)`. -/
def pyListOf (v : PyVal) : Except PyErr PyVal := do
  let xs ← pyIterate v
  pure (.list xs)

/-- Decimal digit value of a character, if any. -/
def digitVal (c : Char) : Option Nat :=
  if '0' ≤ c ∧ c ≤ '9' then some (c.toNat - 48) else none

/-- Accumulate decimal digits; `none` on any non-digit. -/
def parseNatAux : List Char → Nat → Option Nat
  | [], acc => some acc
  | c :: cs, acc =>
    match digitVal c with
    | some d => parseNatAux cs (acc * 10 + d)
    | none => none

/-- Inverse of the timestamp encoding below: parse a decimal integer
string. -/
def isoParse (s : String) : Option Int :=
  match s.data with
  | [] => none
  | '-' :: cs =>
    match cs with
    | [] => none
    | _ => (parseNatAux cs 0).map (fun n => -(n : Int))
  | cs => (parseNatAux cs 0).map (fun n => (n : Int))

/-- Abstraction of `datetime.isoformat`: an injective rendering of the
abstract integer time axis to strings, inverted by `isoParse` the way
`datetime.fromisoformat` inverts `isoformat`. -/
def isoformat (t : Int) : String := toString t

/-- `datetime.fromisoformat(v)`: `TypeError` on a non-string argument,
`ValueError` on a string that does not parse. -/
def fromisoformat (v : PyVal) : Except PyErr PyVal :=
  match v with
  | .str s =>
    match isoParse s with
    | some t => .ok (.datetime t)
    | none => .error .valueError
  | _ => .error .typeError

/-- A JSON object key after `json.dump`: strings stay, ints render in
decimal, booleans and `None` use their JSON spellings, anything else is
not serializable. -/
def jsonKey : PyVal → Except PyErr String
  | .str s => .ok s
  | .int n => .ok (toString n)
  | .bool b => .ok (if b then "true" else "false")
  | .none => .ok "null"
  | _ => .error .typeError

/-- Insert into a string-keyed dict entry list, later value winning while
the first occurrence keeps its position (CPython object parsing). -/
def strDictInsert (m : List (PyVal × PyVal)) (k : String) (v : PyVal) :
    List (PyVal × PyVal) :=
  if m.any (fun p => isStrKeyEq p.1 k) then
    m.map (fun p => if isStrKeyEq p.1 k then (p.1, v) else p)
  else
    m ++ [(.str k, v)]

/-- Rebuild a parsed JSON object from converted key/value pairs. -/
def jsonAssemble (ps : List (String × PyVal)) : List (PyVal × PyVal) :=
  ps.foldl (fun m kv => strDictInsert m kv.1 kv.2) []

mutual
/-- One `json.dump` + `json.load` round applied to a runtime value: dict
keys become strings, sets and datetimes raise `TypeError` (they are not
JSON serializable), everything else survives. -/
def jsonit : PyVal → Except PyErr PyVal
  | .none => .ok .none
  | .bool b => .ok (.bool b)
  | .int n => .ok (.int n)
  | .str s => .ok (.str s)
  | .list xs => do pure (.list (← jsonitList xs))
  | .dict es => do pure (.dict (jsonAssemble (← jsonitPairs es)))
  | .set _ => .error .typeError
  | .datetime _ => .error .typeError

def jsonitList : List PyVal → Except PyErr (List PyVal)
  | [] => .ok []
  | x :: xs => do pure ((← jsonit x) :: (← jsonitList xs))

def jsonitPairs : List (PyVal × PyVal) → Except PyErr (List (String × PyVal))
  | [] => .ok []
  | (k, v) :: es => do pure ((← jsonKey k, ← jsonit v) :: (← jsonitPairs es))
end

/-- `cache.py` lines 61-65: the `data` dict that `save_cache` serializes
(`list(cache.seen_prs)`, the status dict as is, and
`last_checked.isoformat() if last_checked else None`). -/
def save_data (cache : SrcCache) : Except PyErr PyVal := do
  let seen ← pyListOf cache.seen_prs
  let lc ←
    if truthy cache.last_checked then
      match cache.last_checked with
      | .datetime t => Except.ok (PyVal.str (isoformat t))
      | _ => Except.error PyErr.attributeError
    else Except.ok PyVal.none
  pure (.dict [(.str "seen_prs", seen),
               (.str "pr_statuses", cache.pr_statuses),
               (.str "last_checked", lc)])

/-- `cache.py` lines 35-47: the body of `load_cache`'s `try` block after a
successful `json.load`, with Python exception semantics made explicit. -/
def load_data (data : PyVal) : Except PyErr SrcCache := do
  let lcRaw ← pyGet data "last_checked" .none
  let last_checked ←
    if truthy lcRaw then fromisoformat lcRaw else Except.ok PyVal.none
  let seenRaw ← pyGet data "seen_prs" (.list [])
  let seen ← pySet seenRaw
  let stsRaw ← pyGet data "pr_statuses" (.dict [])
  pure ⟨seen, stsRaw, last_checked⟩

/-- `open` + `json.load` inside the `try` block: an unreadable file raises
`OSError`, non-JSON text raises `json.JSONDecodeError`. -/
def open_and_parse : FileState → Except PyErr PyVal
  | .absent => .error .osError
  | .unreadable => .error .osError
  | .malformed => .error .jsonDecodeError
  | .valid d => .ok d

/-- The exception classes named by the `except` clause at `cache.py`
line 48: `(json.JSONDecodeError, KeyError, ValueError)`
(`JSONDecodeError` is a `ValueError` subclass). -/
def caught : PyErr → Bool
  | .jsonDecodeError => true
  | .keyError => true
  | .valueError => true
  | _ => false

/-- `cache.py` lines 23-49 (`load_cache`): default cache when the file
does not exist; otherwise run the `try` body and turn a caught exception
into the default cache, letting any other exception propagate. -/
def load_cache (fs : FileState) : Except PyErr SrcCache :=
  match fs with
  | .absent => .ok emptyCache
  | fs' =>
    match (do load_data (← open_and_parse fs') : Except PyErr SrcCache) with
    | .ok c => .ok c
    | .error e => if caught e then .ok emptyCache else .error e

/-- `save_cache` followed by `load_cache` on the same path: build the
`data` dict, push it through a JSON dump/load round, and run the loader on
the parsed value. -/
def save_then_load (cache : SrcCache) : Except PyErr SrcCache := do
  let data ← save_data cache
  let parsed ← jsonit data
  load_cache (.valid parsed)

/-- The cache of C5's round-trip premise, restricted to the fields the
source `Cache` dataclass actually has: one seen id, one status entry
(int key 1), a set timestamp.  The claim's non-empty `repo_activity`
premise is not even expressible over `SrcCache`. -/
def c5cache : SrcCache :=
  ⟨.set [.int 1], .dict [(.int 1, .str "waiting")], .datetime 10⟩

/-- The well-formed cache file of the backward-compat test
(`tests/test_cache.py::test_load_cache_without_repo_activity_backward_compat`):
seen ids, statuses and timestamp present, no repo-activity key. -/
def c7file : PyVal :=
  .dict [(.str "seen_prs", .list [.int 1, .int 2]),
         (.str "pr_statuses", .dict [(.str "1", .str "waiting")]),
         (.str "last_checked", .str (isoformat 1000))]

end Reviewinator

namespace Reviewinator

/-- C1: `find_new_prs` returns exactly the current PRs whose id is not in
the seen-id set, and the result is a sublist of the input, i.e. the input
order is preserved. -/
theorem find_new_prs_spec (prs : List PullRequest) (seen : Finset Int) :
    (∀ pr, pr ∈ find_new_prs prs seen ↔ pr ∈ prs ∧ pr.id ∉ seen) ∧
      (find_new_prs prs seen).Sublist prs := by
  constructor
  · intro pr
    simp [find_new_prs, List.mem_filter]
  · exact List.filter_sublist prs

/-- C2: `find_status_changes` emits `(pr, old, new)` exactly when `pr` is a
created-kind PR in the input whose defined status `new` differs from the
recorded old status (an absent old status is reported as "unknown" and
counts as differing) and `new` is "approved" or "changes_requested";
concretely, waiting→approved emits exactly one event while
waiting→commented and approved→waiting emit none. -/
theorem find_status_changes_spec :
    (∀ (prs : List PullRequest) (old : List (Int × String))
        (pr : PullRequest) (o n : String),
      (pr, o, n) ∈ find_status_changes prs old ↔
        pr ∈ prs ∧ pr.type = "created" ∧ pr.review_status = some n ∧
          alookup old pr.id ≠ some n ∧
          (n = "approved" ∨ n = "changes_requested") ∧
          o = orUnknown (alookup old pr.id)) ∧
    (find_status_changes [mkCreated 1 (some "approved")] [(1, "waiting")]).length
        = 1 ∧
    find_status_changes [mkCreated 1 (some "commented")] [(1, "waiting")] = [] ∧
    find_status_changes [mkCreated 1 (some "waiting")] [(1, "approved")] = [] := by
  refine ⟨?_, by decide, by decide, by decide⟩
  intro prs old pr o n
  constructor
  · intro h
    unfold find_status_changes at h
    rw [List.mem_filterMap] at h
    obtain ⟨q, hq, hmap⟩ := h
    by_cases ht : q.type = "created"
    · simp only [ht, ne_eq, not_true_eq_false, if_false] at hmap
      match hs : q.review_status with
      | none => rw [hs] at hmap; simp at hmap
      | some ns =>
        rw [hs] at hmap
        simp only at hmap
        split at hmap
        · rename_i hcond
          simp only [Option.some.injEq, Prod.mk.injEq] at hmap
          obtain ⟨h1, h2, h3⟩ := hmap
          subst h1; subst h2; subst h3
          exact ⟨hq, ht, hs, hcond.1, hcond.2, rfl⟩
        · exact absurd hmap (by simp)
    · simp [ht] at hmap
  · rintro ⟨hmem, ht, hs, hne, hok, ho⟩
    unfold find_status_changes
    rw [List.mem_filterMap]
    refine ⟨pr, hmem, ?_⟩
    simp only [ht, ne_eq, not_true_eq_false, if_false, hs]
    simp only [ho]
    rw [if_pos ⟨hne, hok⟩]

/-- C8: the team filter hides a PR exactly when the reviewer data was
readable, the username is not individually requested, the resolvable team
list (organization/slug pairs, skipping records missing either part) is
non-empty, and every resolvable team is excluded; in every other case —
individual request, some non-excluded team, nothing resolvable, or a
lookup failure — the PR is shown (fail-open). -/
theorem should_show_review_request_spec (data : Option ReviewRequestData)
    (username : String) (excluded : List String) :
    should_show_review_request data username excluded = false ↔
      ∃ d, data = some d ∧
        username ∉ d.requested_reviewers ∧
        d.requested_teams.filterMap teamId ≠ [] ∧
        ∀ t ∈ d.requested_teams.filterMap teamId, t ∈ excluded := by
  cases data with
  | none => simp [should_show_review_request]
  | some d =>
    constructor
    · intro h
      simp only [should_show_review_request] at h
      split at h
      · exact absurd h (by simp)
      · split at h
        · exact absurd h (by simp)
        · split at h
          · rename_i h1 h2 h3
            refine ⟨d, rfl, h1, h3.1, ?_⟩
            intro t ht
            have := h3.2
            rw [List.all_eq_true] at this
            have := this t ht
            simpa using this
          · exact absurd h (by simp)
    · rintro ⟨d', hd, hnot, hne, hall⟩
      have hdd : d' = d := by injection hd with h; exact h.symm
      subst hdd
      simp only [should_show_review_request]
      rw [if_neg hnot]
      have hany : (d'.requested_teams.filterMap teamId).any
          (fun t => decide (t ∉ excluded)) = false := by
        rw [List.any_eq_false]
        intro t ht
        simpa using hall t ht
      rw [hany]
      simp only [Bool.false_eq_true, if_false]
      rw [if_pos ⟨hne, by rw [List.all_eq_true]; intro t ht; simpa using hall t ht⟩]

/-- C9 counterexample: filter mode "any" rejects the review status
"commented", so "any" does not accept every status as the claim states. -/
theorem matches_created_filter_any_rejects_commented :
    matches_created_filter "any" "commented" = false := by decide

/-- C9 amended: mode "all" accepts every status, mode "waiting" accepts
only "waiting", mode "needs_attention" accepts only "changes_requested",
and mode "any" accepts exactly "waiting", "changes_requested" and
"approved" (rejecting "commented"); moreover "any" is not even a mode
`load_config` admits. -/
theorem matches_created_filter_spec (s : String) :
    matches_created_filter "all" s = true ∧
    matches_created_filter "waiting" s = decide (s = "waiting") ∧
    matches_created_filter "needs_attention" s = decide (s = "changes_requested") ∧
    matches_created_filter "any" s =
      decide (s = "waiting" ∨ s = "changes_requested" ∨ s = "approved") ∧
    "any" ∉ valid_filters := by
  refine ⟨?_, ?_, ?_, ?_, by decide⟩
  · unfold matches_created_filter
    rw [if_neg (fun h => absurd h.1 (by decide)),
      if_neg (fun h => absurd h.1 (by decide)),
      if_neg (fun h => absurd h.1 (by decide))]
  · unfold matches_created_filter
    by_cases h : s = "waiting"
    · subst h
      rw [if_neg (fun hc => hc.2 rfl)]
      rw [if_neg (fun hc => absurd hc.1 (by decide)),
        if_neg (fun hc => absurd hc.1 (by decide))]
      simp
    · rw [if_pos ⟨rfl, h⟩]
      simp [h]
  · unfold matches_created_filter
    by_cases h : s = "changes_requested"
    · subst h
      rw [if_neg (fun hc => absurd hc.1 (by decide))]
      rw [if_neg (fun hc => hc.2 rfl)]
      rw [if_neg (fun hc => absurd hc.1 (by decide))]
      simp
    · rw [if_neg (fun hc => absurd hc.1 (by decide))]
      rw [if_pos ⟨rfl, h⟩]
      simp [h]
  · unfold matches_created_filter
    rw [if_neg (fun hc => absurd hc.1 (by decide)),
      if_neg (fun hc => absurd hc.1 (by decide))]
    by_cases h1 : s = "waiting"
    · subst h1
      rw [if_neg (fun hc => hc.2 (by simp))]
      simp
    · by_cases h2 : s = "changes_requested"
      · subst h2
        rw [if_neg (fun hc => hc.2 (by simp))]
        simp
      · by_cases h3 : s = "approved"
        · subst h3
          rw [if_neg (fun hc => hc.2 (by simp))]
          simp
        · rw [if_pos ⟨rfl, by simp [h1, h2, h3]⟩]
          simp [h1, h2, h3]

theorem alookup_dictInsert_self {α β : Type} [DecidableEq α]
    (m : List (α × β)) (k : α) (v : β) :
    alookup (dictInsert m k v) k = some v := by
  unfold dictInsert
  split
  · rename_i h
    induction m with
    | nil => simp at h
    | cons p rest ih =>
      obtain ⟨a, b⟩ := p
      by_cases hp : a = k
      · simp only [List.map_cons]
        rw [show (if ((a, b) : α × β).1 = k then (k, v) else (a, b)) = (k, v) from
          if_pos hp]
        rw [alookup, if_pos rfl]
      · simp only [List.any_cons, Bool.or_eq_true, decide_eq_true_eq] at h
        have h' : rest.any (fun p => decide (p.1 = k)) = true := by
          rcases h with h | h
          · exact absurd h hp
          · exact h
        simp only [List.map_cons]
        have hped : ((a, b) : α × β).1 = a := rfl
        rw [show (if ((a, b) : α × β).1 = k then (k, v) else (a, b)) = (a, b) from
          if_neg (by rw [hped]; exact hp)]
        rw [alookup, if_neg hp]
        exact ih h'
  · rename_i h
    induction m with
    | nil => simp [alookup]
    | cons p rest ih =>
      obtain ⟨a, b⟩ := p
      have hp : ¬(a = k) := by
        intro hak
        exact h (by simp [hak])
      rw [List.cons_append, alookup, if_neg hp]
      exact ih (fun hr => h (by simp only [List.any_cons, hr, Bool.or_true]))

theorem alookup_map_overwrite {α β : Type} [DecidableEq α]
    (m : List (α × β)) (k : α) (v : β) (i : α) (h : i ≠ k) :
    alookup (m.map (fun p => if p.1 = k then (k, v) else p)) i = alookup m i := by
  induction m with
  | nil => rfl
  | cons p rest ih =>
    obtain ⟨a, b⟩ := p
    by_cases hp : a = k
    · subst hp
      simp only [List.map_cons, if_pos rfl]
      rw [alookup, if_neg (fun hh => h hh.symm), alookup,
        if_neg (fun hh => h hh.symm)]
      exact ih
    · simp only [List.map_cons]
      rw [show (if ((a, b) : α × β).1 = k then (k, v) else (a, b)) = (a, b) from
        if_neg hp]
      rw [alookup, alookup]
      by_cases hai : a = i
      · rw [if_pos hai, if_pos hai]
      · rw [if_neg hai, if_neg hai]
        exact ih

theorem alookup_append_single_ne {α β : Type} [DecidableEq α]
    (m : List (α × β)) (k : α) (v : β) (i : α) (h : i ≠ k) :
    alookup (m ++ [(k, v)]) i = alookup m i := by
  induction m with
  | nil =>
    simp only [List.nil_append, alookup]
    rw [if_neg (fun hh : k = i => h hh.symm)]
  | cons p rest ih =>
    obtain ⟨a, b⟩ := p
    rw [List.cons_append, alookup, alookup]
    by_cases hai : a = i
    · rw [if_pos hai, if_pos hai]
    · rw [if_neg hai, if_neg hai]
      exact ih

theorem alookup_dictInsert_ne {α β : Type} [DecidableEq α]
    (m : List (α × β)) (k : α) (v : β) (i : α) (h : i ≠ k) :
    alookup (dictInsert m k v) i = alookup m i := by
  unfold dictInsert
  split
  · exact alookup_map_overwrite m k v i h
  · exact alookup_append_single_ne m k v i h

theorem alookup_dictInsert_cases {α β : Type} [DecidableEq α]
    (m : List (α × β)) (k : α) (v : β) (i : α) (s : β)
    (h : alookup (dictInsert m k v) i = some s) :
    (i = k ∧ s = v) ∨ alookup m i = some s := by
  by_cases hik : i = k
  · subst hik
    rw [alookup_dictInsert_self] at h
    exact Or.inl ⟨rfl, (Option.some.injEq _ _ ▸ h).symm⟩
  · rw [alookup_dictInsert_ne m k v i hik] at h
    exact Or.inr h

theorem mem_dictInsert {α β : Type} [DecidableEq α]
    (m : List (α × β)) (k : α) (v : β) (p : α × β)
    (h : p ∈ dictInsert m k v) : p = (k, v) ∨ (p ∈ m ∧ p.1 ≠ k) := by
  unfold dictInsert at h
  split at h
  · rw [List.mem_map] at h
    obtain ⟨q, hq, he⟩ := h
    by_cases hqk : q.1 = k
    · rw [if_pos hqk] at he
      exact Or.inl he.symm
    · rw [if_neg hqk] at he
      exact Or.inr ⟨he ▸ hq, he ▸ hqk⟩
  · rename_i hany
    rw [List.mem_append] at h
    rcases h with h | h
    · refine Or.inr ⟨h, ?_⟩
      intro hk
      exact hany (by rw [List.any_eq_true]; exact ⟨p, h, by simp [hk]⟩)
    · rw [List.mem_singleton] at h
      exact Or.inl h

theorem dictInsert_mem_self {α β : Type} [DecidableEq α]
    (m : List (α × β)) (k : α) (v : β) : (k, v) ∈ dictInsert m k v := by
  unfold dictInsert
  split
  · rename_i hany
    rw [List.any_eq_true] at hany
    obtain ⟨q, hq, hqk⟩ := hany
    rw [List.mem_map]
    refine ⟨q, hq, ?_⟩
    rw [if_pos (by simpa using hqk)]
  · rw [List.mem_append]
    exact Or.inr (List.mem_singleton.mpr rfl)

theorem mem_dictInsert_of_mem {α β : Type} [DecidableEq α]
    (m : List (α × β)) (k : α) (v : β) (p : α × β)
    (hp : p ∈ m) (hne : p.1 ≠ k) : p ∈ dictInsert m k v := by
  unfold dictInsert
  split
  · rw [List.mem_map]
    exact ⟨p, hp, if_neg hne⟩
  · rw [List.mem_append]
    exact Or.inl hp

theorem alookup_eq_of_forall_mem {α β : Type} [DecidableEq α]
    (m : List (α × β)) (k : α) (v : β)
    (h1 : ∃ t, (k, t) ∈ m) (h2 : ∀ t, (k, t) ∈ m → t = v) :
    alookup m k = some v := by
  induction m with
  | nil => obtain ⟨t, ht⟩ := h1; cases ht
  | cons p rest ih =>
    obtain ⟨a, b⟩ := p
    rw [alookup]
    by_cases hak : a = k
    · subst hak
      rw [if_pos rfl]
      rw [h2 b (List.mem_cons_self _ _)]
    · rw [if_neg hak]
      refine ih ?_ (fun t ht => h2 t (List.mem_cons_of_mem _ ht))
      obtain ⟨t, ht⟩ := h1
      rcases List.mem_cons.mp ht with he | hr
      · exact absurd (congrArg Prod.fst he).symm hak
      · exact ⟨t, hr⟩

theorem alookup_prStatusStep_ne (init : List (Int × String)) (pr : PullRequest)
    (i : Int) (h : pr.id ≠ i) :
    alookup (prStatusStep init pr) i = alookup init i := by
  unfold prStatusStep
  split
  · cases hrs : pr.review_status with
    | some s => exact alookup_dictInsert_ne init pr.id s i (fun hh => h hh.symm)
    | none => rfl
  · rfl

theorem statusFold_skip : ∀ (prs : List PullRequest)
    (init : List (Int × String)) (i : Int),
    (∀ pr ∈ prs, pr.id ≠ i) →
    alookup (prs.foldl prStatusStep init) i = alookup init i := by
  intro prs
  induction prs with
  | nil => intro init i _; rfl
  | cons pr rest ih =>
    intro init i h
    rw [List.foldl_cons,
      ih (prStatusStep init pr) i (fun q hq => h q (List.mem_cons_of_mem _ hq))]
    exact alookup_prStatusStep_ne init pr i (h pr (List.mem_cons_self _ _))

theorem statusFold_lookup_gen : ∀ (prs : List PullRequest)
    (init : List (Int × String)) (i : Int) (s : String),
    (prs.map PullRequest.id).Nodup →
    alookup init i = none →
    (alookup (prs.foldl prStatusStep init) i = some s ↔
      ∃ pr ∈ prs, pr.id = i ∧ pr.type = "created" ∧ pr.review_status = some s) := by
  intro prs
  induction prs with
  | nil =>
    intro init i s _ hinit
    simp [hinit]
  | cons pr rest ih =>
    intro init i s hnd hinit
    rw [List.map_cons, List.nodup_cons] at hnd
    obtain ⟨hpr, hrest⟩ := hnd
    rw [List.foldl_cons]
    by_cases hid : pr.id = i
    · have hni : ∀ q ∈ rest, q.id ≠ i := by
        intro q hq hqi
        exact hpr (List.mem_map.mpr ⟨q, hq, hqi.trans hid.symm⟩)
      rw [statusFold_skip rest (prStatusStep init pr) i hni]
      constructor
      · intro h
        unfold prStatusStep at h
        split at h
        · rename_i hc
          split at h
          · rename_i s0 hrs
            rcases alookup_dictInsert_cases init pr.id s0 i s h with ⟨_, hs⟩ | hlk
            · exact ⟨pr, List.mem_cons_self _ _, hid, hc, by rw [hrs, hs]⟩
            · rw [hinit] at hlk; cases hlk
          · rw [hinit] at h; cases h
        · rw [hinit] at h; cases h
      · rintro ⟨q, hq, hqi, hqc, hqs⟩
        rcases List.mem_cons.mp hq with he | hq'
        · subst he
          unfold prStatusStep
          rw [if_pos hqc, hqs, ← hqi]
          exact alookup_dictInsert_self init q.id s
        · exact absurd hqi (hni q hq')
    · have hstep : alookup (prStatusStep init pr) i = none := by
        rw [alookup_prStatusStep_ne init pr i hid]; exact hinit
      rw [ih (prStatusStep init pr) i s hrest hstep]
      constructor
      · rintro ⟨q, hq, hx⟩
        exact ⟨q, List.mem_cons_of_mem _ hq, hx⟩
      · rintro ⟨q, hq, hqi, hqc, hqs⟩
        rcases List.mem_cons.mp hq with he | hq'
        · subst he; exact absurd hqi hid
        · exact ⟨q, hq', hqi, hqc, hqs⟩

theorem statusFold_sub : ∀ (prs : List PullRequest)
    (init : List (Int × String)) (i : Int) (s : String),
    alookup (prs.foldl prStatusStep init) i = some s →
    alookup init i = some s ∨
      ∃ pr ∈ prs, pr.id = i ∧ pr.type = "created" ∧ pr.review_status = some s := by
  intro prs
  induction prs with
  | nil => intro init i s h; exact Or.inl h
  | cons pr rest ih =>
    intro init i s h
    rw [List.foldl_cons] at h
    rcases ih (prStatusStep init pr) i s h with h0 | ⟨q, hq, hx⟩
    · unfold prStatusStep at h0
      split at h0
      · rename_i hc
        split at h0
        · rename_i s0 hrs
          rcases alookup_dictInsert_cases init pr.id s0 i s h0 with ⟨hik, hs⟩ | hlk
          · exact Or.inr ⟨pr, List.mem_cons_self _ _, hik.symm, hc, by rw [hrs, hs]⟩
          · exact Or.inl hlk
        · exact Or.inl h0
      · exact Or.inl h0
    · exact Or.inr ⟨q, List.mem_cons_of_mem _ hq, hx⟩

theorem statusStep_preserves_present (m : List (Int × String)) (q : PullRequest)
    (i : Int) (h : ∃ s, alookup m i = some s) :
    ∃ s, alookup (prStatusStep m q) i = some s := by
  unfold prStatusStep
  split
  · cases hrs : q.review_status with
    | some s0 =>
      by_cases hqi : q.id = i
      · subst hqi
        exact ⟨s0, alookup_dictInsert_self m q.id s0⟩
      · obtain ⟨s, hs⟩ := h
        exact ⟨s, by
          rw [alookup_dictInsert_ne m q.id s0 i (fun hh => hqi hh.symm)]
          exact hs⟩
    | none => exact h
  · exact h

theorem statusFold_preserves_present : ∀ (prs : List PullRequest)
    (m : List (Int × String)) (i : Int),
    (∃ s, alookup m i = some s) →
    ∃ s, alookup (prs.foldl prStatusStep m) i = some s := by
  intro prs
  induction prs with
  | nil => intro m i h; exact h
  | cons pr rest ih =>
    intro m i h
    rw [List.foldl_cons]
    exact ih (prStatusStep m pr) i (statusStep_preserves_present m pr i h)

theorem statusFold_present : ∀ (prs : List PullRequest)
    (init : List (Int × String)) (pr0 : PullRequest),
    pr0 ∈ prs → pr0.type = "created" → ∀ s0, pr0.review_status = some s0 →
    ∃ s, alookup (prs.foldl prStatusStep init) pr0.id = some s := by
  intro prs
  induction prs with
  | nil => intro init pr0 h; cases h
  | cons pr rest ih =>
    intro init pr0 hmem hc s0 hs
    rw [List.foldl_cons]
    rcases List.mem_cons.mp hmem with he | hm
    · subst he
      apply statusFold_preserves_present
      unfold prStatusStep
      rw [if_pos hc, hs]
      exact ⟨s0, alookup_dictInsert_self init pr0.id s0⟩
    · exact ih (prStatusStep init pr) pr0 hm hc s0 hs

theorem raStep_preserves_key (m : List (String × Int)) (k k' : String)
    (now : Int)
    (h1 : ∃ t, (k, t) ∈ m) (h2 : ∀ t, (k, t) ∈ m → t = now) :
    (∃ t, (k, t) ∈ dictInsert m k' now) ∧
      (∀ t, (k, t) ∈ dictInsert m k' now → t = now) := by
  constructor
  · by_cases hkk : k = k'
    · subst hkk
      exact ⟨now, dictInsert_mem_self m k now⟩
    · obtain ⟨t, ht⟩ := h1
      exact ⟨t, mem_dictInsert_of_mem m k' now (k, t) ht hkk⟩
  · intro t ht
    rcases mem_dictInsert m k' now (k, t) ht with he | ⟨hm, _⟩
    · exact congrArg Prod.snd he
    · exact h2 t hm

theorem raFold_preserves_key : ∀ (prs : List PullRequest)
    (m : List (String × Int)) (k : String) (now : Int),
    (∃ t, (k, t) ∈ m) → (∀ t, (k, t) ∈ m → t = now) →
    (∃ t, (k, t) ∈ prs.foldl (repoActivityStep now) m) ∧
      (∀ t, (k, t) ∈ prs.foldl (repoActivityStep now) m → t = now) := by
  intro prs
  induction prs with
  | nil => intro m k now h1 h2; exact ⟨h1, h2⟩
  | cons pr rest ih =>
    intro m k now h1 h2
    rw [List.foldl_cons]
    obtain ⟨g1, g2⟩ := raStep_preserves_key m k pr.repo now h1 h2
    exact ih (dictInsert m pr.repo now) k now g1 g2

theorem raFold_establish : ∀ (prs : List PullRequest)
    (m : List (String × Int)) (now : Int) (pr0 : PullRequest),
    pr0 ∈ prs →
    (∃ t, (pr0.repo, t) ∈ prs.foldl (repoActivityStep now) m) ∧
      (∀ t, (pr0.repo, t) ∈ prs.foldl (repoActivityStep now) m → t = now) := by
  intro prs
  induction prs with
  | nil => intro m now pr0 h; cases h
  | cons pr rest ih =>
    intro m now pr0 hmem
    rw [List.foldl_cons]
    rcases List.mem_cons.mp hmem with he | hm
    · subst he
      apply raFold_preserves_key rest (dictInsert m pr0.repo now) pr0.repo now
      · exact ⟨now, dictInsert_mem_self m pr0.repo now⟩
      · intro t ht
        rcases mem_dictInsert m pr0.repo now (pr0.repo, t) ht with he2 | ⟨_, hne⟩
        · exact congrArg Prod.snd he2
        · exact absurd rfl hne
    · exact ih (dictInsert m pr.repo now) now pr0 hm

/-- C3: on a first-run poll no novelty and no transition events are
produced, the first-run flag comes back cleared, and the new cache is
still populated from the fetch: its seen ids are exactly the fetched ids,
every fetched created PR with a defined status has an entry in the status
map, and every status-map entry comes from some fetched PR. -/
theorem first_poll_spec (prs : List PullRequest) (cache : EngineCache)
    (now lookback : Int) :
    (fetch_and_update prs cache now lookback true).new_prs = [] ∧
    (fetch_and_update prs cache now lookback true).status_changes = [] ∧
    (∀ i, i ∈ (fetch_and_update prs cache now lookback true).cache.seen_prs ↔
      ∃ pr ∈ prs, pr.id = i) ∧
    (∀ pr ∈ prs, pr.type = "created" → ∀ s0, pr.review_status = some s0 →
      ∃ s, alookup
        (fetch_and_update prs cache now lookback true).cache.pr_statuses pr.id
          = some s) ∧
    (∀ i s, alookup
        (fetch_and_update prs cache now lookback true).cache.pr_statuses i
          = some s →
      ∃ pr ∈ prs, pr.id = i ∧ pr.type = "created" ∧ pr.review_status = some s) ∧
    (fetch_and_update prs cache now lookback true).is_first_run = false := by
  refine ⟨rfl, rfl, ?_, ?_, ?_, rfl⟩
  · intro i
    show i ∈ (prs.map (fun pr => pr.id)).toFinset ↔ _
    rw [List.mem_toFinset, List.mem_map]
  · intro pr hpr hc s0 hs
    exact statusFold_present prs [] pr hpr hc s0 hs
  · intro i s h
    rcases statusFold_sub prs [] i s h with h0 | hx
    · simp [alookup] at h0
    · exact hx

/-- C4: after any poll, whatever the prior cache held, the new seen-id set
is exactly the set of fetched ids and the new status map holds exactly the
id-to-status pairs of the fetched created PRs with a defined status (full
replacement), stated for fetches with pairwise distinct PR ids. -/
theorem cache_replacement_spec (prs : List PullRequest) (cache : EngineCache)
    (now lookback : Int) (first : Bool)
    (hnd : (prs.map PullRequest.id).Nodup) :
    (∀ i, i ∈ (fetch_and_update prs cache now lookback first).cache.seen_prs ↔
      ∃ pr ∈ prs, pr.id = i) ∧
    (∀ i s,
      alookup (fetch_and_update prs cache now lookback first).cache.pr_statuses i
          = some s ↔
      ∃ pr ∈ prs, pr.id = i ∧ pr.type = "created" ∧ pr.review_status = some s) := by
  constructor
  · intro i
    show i ∈ (prs.map (fun pr => pr.id)).toFinset ↔ _
    rw [List.mem_toFinset, List.mem_map]
  · intro i s
    exact statusFold_lookup_gen prs [] i s hnd rfl

/-- C4 witness: the replacement property evaluated on a concrete one-PR
fetch against a junk prior cache. -/
theorem cache_replacement_witness :
    (([mkCreated 5 (some "waiting")].map PullRequest.id).Nodup) ∧
    (∀ i, i ∈ (fetch_and_update [mkCreated 5 (some "waiting")] sampleCache 0 1
        false).cache.seen_prs ↔
      ∃ pr ∈ [mkCreated 5 (some "waiting")], pr.id = i) ∧
    (∀ i s,
      alookup (fetch_and_update [mkCreated 5 (some "waiting")] sampleCache 0 1
          false).cache.pr_statuses i = some s ↔
      ∃ pr ∈ [mkCreated 5 (some "waiting")],
        pr.id = i ∧ pr.type = "created" ∧ pr.review_status = some s) :=
  ⟨by decide, cache_replacement_spec _ _ _ _ _ (by decide)⟩

/-- C10: after any poll with a positive lookback, every fetched PR's repo
maps to the poll time in the repo-activity map, no surviving entry is
older than now minus the lookback, and the pruning also applies to a poll
that fetched no PRs at all. -/
theorem repo_activity_spec (prs : List PullRequest) (cache : EngineCache)
    (now lookback : Int) (first : Bool) (hlb : 0 < lookback) :
    (∀ pr ∈ prs,
      alookup (fetch_and_update prs cache now lookback first).cache.repo_activity
        pr.repo = some now) ∧
    (∀ repo t,
      (repo, t) ∈
          (fetch_and_update prs cache now lookback first).cache.repo_activity →
      ¬ t < now - lookback) ∧
    (∀ repo t,
      (repo, t) ∈
          (fetch_and_update [] cache now lookback first).cache.repo_activity →
      ¬ t < now - lookback) := by
  have hra : (fetch_and_update prs cache now lookback first).cache.repo_activity
      = (prs.foldl (repoActivityStep now) cache.repo_activity).filter
          (fun p => decide (now - lookback < p.2)) := rfl
  refine ⟨?_, ?_, ?_⟩
  · intro pr hpr
    obtain ⟨hex, hall⟩ := raFold_establish prs cache.repo_activity now pr hpr
    rw [hra]
    apply alookup_eq_of_forall_mem
    · obtain ⟨t, ht⟩ := hex
      have hteq := hall t ht
      subst hteq
      refine ⟨t, List.mem_filter.mpr ⟨ht, ?_⟩⟩
      simp only [decide_eq_true_eq]
      omega
    · intro t ht
      exact hall t (List.mem_filter.mp ht).1
  · intro repo t ht
    rw [hra] at ht
    have h2 := (List.mem_filter.mp ht).2
    simp only [decide_eq_true_eq] at h2
    omega
  · intro repo t ht
    have ht' : (repo, t) ∈ cache.repo_activity.filter
        (fun p => decide (now - lookback < p.2)) := ht
    have h2 := (List.mem_filter.mp ht').2
    simp only [decide_eq_true_eq] at h2
    omega

/-- C5: saving then loading a cache whose status dict is keyed by the
integer 1 yields a status dict keyed by the string "1": the JSON round
turns int keys into string keys, so the loaded cache is not equal to the
original (and `SrcCache` cannot even carry the claim's non-empty
repo-activity premise). -/
theorem save_then_load_breaks_roundtrip :
    save_then_load c5cache =
      .ok ⟨.set [.int 1], .dict [(.str "1", .str "waiting")], .datetime 10⟩ ∧
    PyVal.dict [(.str "1", .str "waiting")] ≠ c5cache.pr_statuses := by
  constructor
  · rfl
  · intro h
    simp [c5cache] at h

/-- C6 counterexample: a readable file holding the valid JSON text
"[]" makes `load_cache` raise `AttributeError` (`list.get` does not
exist and `AttributeError` is not in the `except` clause) instead of
returning the default cache. -/
theorem load_cache_raises_on_json_array :
    load_cache (.valid (.list [])) = .error .attributeError := rfl

/-- C6 amended: `load_cache` returns the default cache when the file is
absent, when its text is not JSON, or when a truthy `last_checked` string
fails timestamp parsing (`ValueError` is caught); it loads a well-shaped
object normally; but the error propagates when the file exists and is
unreadable (`OSError`), when the JSON value is not an object
(`AttributeError`), or when a truthy `last_checked` is not a string
(`TypeError`). -/
theorem load_cache_amended_spec :
    load_cache .absent = .ok emptyCache ∧
    load_cache .malformed = .ok emptyCache ∧
    load_cache .unreadable = .error .osError ∧
    (∀ v : PyVal, (∀ es, v ≠ .dict es) →
      load_cache (.valid v) = .error .attributeError) ∧
    load_cache (.valid (.dict [(.str "last_checked", .str "nope")]))
      = .ok emptyCache ∧
    load_cache (.valid (.dict [(.str "last_checked", .int 5)]))
      = .error .typeError ∧
    (∀ (seen : List Int) (sts : List (PyVal × PyVal)),
      load_cache (.valid (.dict [(.str "seen_prs", .list (seen.map PyVal.int)),
          (.str "pr_statuses", .dict sts), (.str "last_checked", .none)]))
        = .ok ⟨.set (pyDedup (seen.map PyVal.int)), .dict sts, .none⟩) := by
  refine ⟨rfl, rfl, rfl, ?_, rfl, rfl, fun seen sts => rfl⟩
  intro v hv
  cases v with
  | dict es => exact absurd rfl (hv es)
  | none => rfl
  | bool b => rfl
  | int n => rfl
  | str s => rfl
  | list xs => rfl
  | set xs => rfl
  | datetime t => rfl

/-- C6 witness: the amended characterization applied at a non-dict JSON
value and at a concrete well-shaped object. -/
theorem load_cache_amended_witness :
    load_cache (.valid (.str "x")) = .error .attributeError ∧
    load_cache (.valid (.dict
        [(.str "seen_prs", .list ([(1 : Int)].map PyVal.int)),
         (.str "pr_statuses", .dict []), (.str "last_checked", .none)]))
      = .ok ⟨.set (pyDedup ([(1 : Int)].map PyVal.int)), .dict [], .none⟩ :=
  ⟨load_cache_amended_spec.2.2.2.1 (.str "x") (fun _ h => PyVal.noConfusion h),
    load_cache_amended_spec.2.2.2.2.2.2 [(1 : Int)] []⟩

/-- C7: loading the backward-compat test's well-formed cache file that
lacks the repo-activity key succeeds, but the resulting source `Cache`
value consists of exactly `seen_prs`, `pr_statuses` and `last_checked` —
the dataclass has no `repo_activity` field at all for the claimed empty
mapping to appear in. -/
theorem load_cache_no_repo_activity_field :
    load_cache (.valid c7file) =
      .ok ⟨.set [.int 1, .int 2], .dict [(.str "1", .str "waiting")],
        .datetime 1000⟩ := rfl

/-- C10 witness: the repo-activity property evaluated on a concrete
one-PR fetch with lookback 1 at time 100. -/
theorem repo_activity_witness :
    (0 : Int) < 1 ∧
    alookup (fetch_and_update [mkCreated 5 (some "waiting")] sampleCache 100 1
        false).cache.repo_activity (mkCreated 5 (some "waiting")).repo
      = some 100 :=
  ⟨by decide,
    (repo_activity_spec [mkCreated 5 (some "waiting")] sampleCache 100 1 false
      (by decide)).1 _ (List.mem_cons_self _ _)⟩

end Reviewinator
